import Mathlib

/-!
Verification of the session memory store and the streaming aggregation
protocol of the adaptive lecture summarizer backend.

The definitions below are a shallow embedding of the relevant parts of
the backend source (main.py).  Pure data manipulation is translated into
Lean functions; the process-wide mutable session map is modelled by
explicit state passing of a map value; HTTP error responses are modelled
with an Except type carrying the status code and detail message; the
per-tier LLM streaming calls are modelled by an injected collaborator
function from tier index to generation outcome, and the async generators
become functions producing the list of emitted events in order.
-/

namespace LectureBackend

/-- Python str.strip() whitespace set restricted to the characters the
backend can actually encounter (space, tab, newline, carriage return,
vertical tab, form feed). -/
def isPySpace (c : Char) : Bool :=
  c = ' ' || c = '\t' || c = '\n' || c = '\r' || c = '\x0b' || c = '\x0c'

/-- Embedding of Python str.strip(): drop whitespace at both ends. -/
def pyStrip (s : String) : String :=
  ⟨((s.data.dropWhile isPySpace).reverse.dropWhile isPySpace).reverse⟩

/-- The source-kind label mapping used when rebuilding combined text
(main.py, the dict lookup with default in add_to_memory and
remove_from_memory). -/
def type_label (t : String) : String :=
  if t = "text" then "Text Input"
  else if t = "pdf" then "PDF Document"
  else if t = "audio" then "Audio Transcription"
  else "Unknown Source"

/-- One ingested source entry (the source_entry dict in add_to_memory).
The timestamp field is wall-clock provenance irrelevant to the claims
and is omitted; preview is derived, see below. -/
structure ContentSource where
  type : String
  filename : String
  text : String
deriving DecidableEq

/-- The preview field of a source entry: first 200 characters followed
by an ellipsis when truncated. -/
def ContentSource.preview (s : ContentSource) : String :=
  if s.text.length > 200 then ⟨s.text.data.take 200⟩ ++ "..." else s.text

/-- Per-session memory value ({"sources": [...], "combined_text": ...}). -/
structure SessionMemory where
  sources : List ContentSource
  combined_text : String
deriving DecidableEq

/-- The process-wide session map, modelled as a function from session id
to the optional per-session memory. -/
def Store : Type := String → Option SessionMemory

/-- Initial state of the module-level lecture_memory dict (empty). -/
def lecture_memory : Store := fun _ => none

/-- One rendered block of the combined text:
f-string "=== Source idx: type_label - filename ===\n\ntext\n\n". -/
def sourceBlock (idx : Nat) (s : ContentSource) : String :=
  "=== Source " ++ toString idx ++ ": " ++ type_label s.type ++ " - "
    ++ s.filename ++ " ===\n\n" ++ s.text ++ "\n\n"

/-- Rebuild of combined_text from the sources list: 1-based enumerate,
blocks joined by a newline ("\n".join(combined_parts)). -/
def rebuildCombined (sources : List ContentSource) : String :=
  String.intercalate "\n" (sources.enum.map (fun p => sourceBlock (p.1 + 1) p.2))

/-- An HTTPException raised by an endpoint: status code plus detail. -/
structure HTTPError where
  status : Nat
  detail : String
deriving DecidableEq

/-- JSON payload returned by a successful /memory/add. -/
structure AddResult where
  session_id : String
  source_count : Nat
  combined_length : Nat
  source_added : ContentSource
deriving DecidableEq

/-- JSON payload returned by /memory/get. -/
structure GetResult where
  sources : List ContentSource
  combined_text : String
  source_count : Nat
deriving DecidableEq

/-- JSON payload returned by a successful /memory/remove. -/
structure RemoveResult where
  removed : ContentSource
  source_count : Nat
  combined_length : Nat
deriving DecidableEq

/-- Embedding of the /memory/add endpoint (add_to_memory).  The body
text is stripped, then rejected when shorter than 10 characters; the
session id is taken from cookie or body (both merged into sid?, where
the empty string is falsy as in Python) or minted fresh (freshId stands
for the uuid4 value); the memory entry is created on first use, the new
source appended, and combined_text rebuilt from scratch. -/
def add_to_memory (st : Store) (sid? : Option String) (freshId : String)
    (source_type filename rawText : String) :
    Except HTTPError (Store × AddResult) :=
  let text := pyStrip rawText
  if text.length < 10 then
    .error ⟨400, "Content must be at least 10 characters"⟩
  else
    let sid :=
      match sid? with
      | none => freshId
      | some s => if s = "" then freshId else s
    let mem := (st sid).getD ⟨[], ""⟩
    let entry : ContentSource := ⟨source_type, filename, text⟩
    let sources := mem.sources ++ [entry]
    let combined := rebuildCombined sources
    let st' : Store := fun s => if s = sid then some ⟨sources, combined⟩ else st s
    .ok (st', ⟨sid, sources.length, combined.length, entry⟩)

/-- Embedding of the /memory/get endpoint (get_memory): an unknown or
missing session id yields the empty view, never an error. -/
def get_memory (st : Store) (sid? : Option String) : GetResult :=
  match sid? with
  | none => ⟨[], "", 0⟩
  | some sid =>
    if sid = "" then ⟨[], "", 0⟩
    else
      match st sid with
      | none => ⟨[], "", 0⟩
      | some mem => ⟨mem.sources, mem.combined_text, mem.sources.length⟩

/-- Embedding of the /memory/remove/(index) endpoint
(remove_from_memory): 404 when the session is unknown (or the id is
falsy), 400 when the index is outside [0, len(sources)); otherwise pop
the element and rebuild combined_text. -/
def remove_from_memory (st : Store) (sid? : Option String) (index : Int) :
    Except HTTPError (Store × RemoveResult) :=
  match sid? with
  | none => .error ⟨404, "No session found"⟩
  | some sid =>
    if sid = "" then .error ⟨404, "No session found"⟩
    else
      match st sid with
      | none => .error ⟨404, "No session found"⟩
      | some mem =>
        if index < 0 ∨ (mem.sources.length : Int) ≤ index then
          .error ⟨400, "Invalid source index"⟩
        else
          let i := index.toNat
          let removed := (mem.sources[i]?).getD ⟨"", "", ""⟩
          let sources := mem.sources.eraseIdx i
          let combined := rebuildCombined sources
          let st' : Store :=
            fun s => if s = sid then some ⟨sources, combined⟩ else st s
          .ok (st', ⟨removed, sources.length, combined.length⟩)

/-- Embedding of the /memory/clear endpoint (clear_memory): delete the
entry when present, otherwise do nothing; always succeeds. -/
def clear_memory (st : Store) (sid? : Option String) : Store :=
  match sid? with
  | none => st
  | some sid =>
    if sid = "" then st
    else
      match st sid with
      | none => st
      | some _ => fun s => if s = sid then none else st s

/-- The use_memory = true transcript lookup of /process_stream
(process_lecture_stream): 400 "No memory found" when the session is
missing, 400 "Memory is empty" when the stored combined text has a
trimmed length below 50 characters (the falsy check on the transcript
is subsumed, since an empty string strips to length 0). -/
def memory_transcript_for_stream (st : Store) (sid? : Option String) :
    Except HTTPError String :=
  match sid? with
  | none => .error ⟨400, "No memory found. Please add sources first."⟩
  | some sid =>
    if sid = "" then .error ⟨400, "No memory found. Please add sources first."⟩
    else
      match st sid with
      | none => .error ⟨400, "No memory found. Please add sources first."⟩
      | some mem =>
        if (pyStrip mem.combined_text).length < 50 then
          .error ⟨400, "Memory is empty. Please add sources first."⟩
        else .ok mem.combined_text

/-- The identical use_memory = true transcript lookup of
/generate_adaptive_question (create_adaptive_question). -/
def memory_transcript_for_question (st : Store) (sid? : Option String) :
    Except HTTPError String :=
  match sid? with
  | none => .error ⟨400, "No memory found. Please add sources first."⟩
  | some sid =>
    if sid = "" then .error ⟨400, "No memory found. Please add sources first."⟩
    else
      match st sid with
      | none => .error ⟨400, "No memory found. Please add sources first."⟩
      | some mem =>
        if (pyStrip mem.combined_text).length < 50 then
          .error ⟨400, "Memory is empty. Please add sources first."⟩
        else .ok mem.combined_text

/-- One client operation against the memory endpoints, used to quantify
over arbitrary interleavings of mutations and reads. -/
inductive MemOp where
  | add (sid? : Option String) (freshId source_type filename rawText : String)
  | remove (sid? : Option String) (index : Int)
  | clear (sid? : Option String)
  | get (sid? : Option String)

/-- Effect of one operation on the store; a raised HTTPException leaves
the store untouched (all validation in the source happens before any
mutation). -/
def applyOp (st : Store) : MemOp → Store
  | .add sid? fresh ty fn tx =>
    match add_to_memory st sid? fresh ty fn tx with
    | .ok (st', _) => st'
    | .error _ => st
  | .remove sid? i =>
    match remove_from_memory st sid? i with
    | .ok (st', _) => st'
    | .error _ => st
  | .clear sid? => clear_memory st sid?
  | .get _ => st

/-- Effect of a sequence of operations, oldest first. -/
def applyOps (st : Store) (ops : List MemOp) : Store :=
  ops.foldl applyOp st

/-- Store invariant: every live session has its combined_text equal to
the deterministic rebuild from its sources. -/
def WF (st : Store) : Prop :=
  ∀ sid mem, st sid = some mem → mem.combined_text = rebuildCombined mem.sources

theorem WF_lecture_memory : WF lecture_memory := by
  intro sid mem h
  simp [lecture_memory] at h

theorem applyOp_shape (st : Store) (op : MemOp) (x : String) :
    applyOp st op x = st x ∨ applyOp st op x = none ∨
      ∃ srcs, applyOp st op x = some ⟨srcs, rebuildCombined srcs⟩ := by
  cases op with
  | add sid? fresh ty fn tx =>
    by_cases hlen : (pyStrip tx).length < 10
    · left
      simp [applyOp, add_to_memory, hlen]
    · simp only [applyOp, add_to_memory, if_neg hlen]

      split
      · right; right; exact ⟨_, rfl⟩
      · left; rfl
  | remove sid? i =>
    cases sid? with
    | none => left; rfl
    | some s =>
      by_cases hs0 : s = ""
      · left
        simp [applyOp, remove_from_memory, hs0]
      · cases hst : st s with
        | none =>
          left
          simp [applyOp, remove_from_memory, hs0, hst]
        | some m =>
          by_cases hidx : i < 0 ∨ (m.sources.length : Int) ≤ i
          · left
            simp [applyOp, remove_from_memory, hs0, hst, hidx]
          · simp only [applyOp, remove_from_memory, if_neg hs0, hst, if_neg hidx]

            split
            · right; right; exact ⟨_, rfl⟩
            · left; rfl
  | clear sid? =>
    cases sid? with
    | none => left; rfl
    | some s =>
      by_cases hs0 : s = ""
      · left
        simp [applyOp, clear_memory, hs0]
      · cases hst : st s with
        | none =>
          left
          simp [applyOp, clear_memory, hs0, hst]
        | some m =>
          simp only [applyOp, clear_memory, if_neg hs0, hst]

          split
          · right; left; rfl
          · left; rfl
  | get sid? => left; rfl

theorem WF_applyOp (st : Store) (op : MemOp) (h : WF st) : WF (applyOp st op) := by
  intro sid mem hmem
  rcases applyOp_shape st op sid with hc | hc | ⟨srcs, hc⟩
  · exact h sid mem (hc ▸ hmem)
  · rw [hc] at hmem
    cases hmem
  · rw [hc] at hmem
    cases hmem
    rfl

theorem WF_applyOps (ops : List MemOp) (st : Store) (h : WF st) :
    WF (applyOps st ops) := by
  induction ops generalizing st with
  | nil => exact h
  | cons op rest ih => exact ih (applyOp st op) (WF_applyOp st op h)

/-- Outcome of one tier of the external LevelGenerator collaborator
(the anthropic streaming call): either the finite fragment sequence is
delivered in full, or some fragments are delivered and then the stream
raises a GenerationError with a message. -/
inductive GenOutcome where
  | ok (fragments : List String)
  | fail (produced : List String) (errMsg : String)
deriving DecidableEq

/-- The fragments a tier stream yields before terminating (all of them
on success, the produced ones before the exception on failure). -/
def GenOutcome.frags : GenOutcome → List String
  | .ok f => f
  | .fail p _ => p

/-- Whether the tier stream terminates without raising. -/
def GenOutcome.isOk : GenOutcome → Bool
  | .ok _ => true
  | .fail _ _ => false

/-- One server-sent event emitted by the aggregator, as built by the
json dumps calls in generate_all_summaries_stream.  Note that the error
event of the source carries only a message and no level field. -/
inductive Event where
  | test (message : String)
  | level_start (level : Int)
  | content (level : Int) (text : String)
  | error (message : String)
  | complete
deriving DecidableEq

/-- Python int() truncation toward zero, on rationals (the shallow
embedding of the float arithmetic uses exact rationals). -/
def truncToZero (q : ℚ) : Int :=
  if q < 0 then -((-q).floor) else q.floor

/-- start_level = min(4, int(knowledge_level * 5)) from
generate_all_summaries_stream. -/
def start_level (knowledge_level : ℚ) : Int :=
  min 4 (truncToZero (knowledge_level * 5))

/-- Python range(start, stop) with step 1, over integers. -/
def pyRange (start stop : Int) : List Int :=
  (List.range (stop - start).toNat).map (fun i : Nat => start + (i : Int))

/-- The tier indices a run iterates over: range(start_level, 5). -/
def tiersOf (knowledge_level : ℚ) : List Int :=
  pyRange (start_level knowledge_level) 5

/-- The events one tier contributes before any exception handling: the
level_start event followed by one content event per yielded fragment,
in the order the underlying stream yields them. -/
def tierBlock (gen : Int → GenOutcome) (l : Int) : List Event :=
  Event.level_start l :: ((gen l).frags.map (Event.content l))

/-- The per-tier loop of generate_all_summaries_stream including its
single surrounding try/except: tiers are processed strictly in order;
when every tier stream succeeds a final complete event follows; the
first raising tier stops the generator after one top-level error event
(the except clause is outside the loop, so no later tier runs and no
complete event is emitted). -/
def runTiers (gen : Int → GenOutcome) : List Int → List Event
  | [] => [Event.complete]
  | l :: ls =>
    match gen l with
    | .ok frags =>
      (Event.level_start l :: frags.map (Event.content l)) ++ runTiers gen ls
    | .fail produced msg =>
      (Event.level_start l :: produced.map (Event.content l)) ++ [Event.error msg]

/-- The full event sequence of one aggregator run
(generate_all_summaries_stream): the initial test event, then the tier
loop from the starting level.  The transcript and language arguments
only shape the prompts sent to the collaborator and do not influence
which events are emitted. -/
def generate_all_summaries_stream (gen : Int → GenOutcome)
    (transcript language : String) (knowledge_level : ℚ) : List Event :=
  let _ := transcript
  let _ := language
  Event.test "Stream started" :: runTiers gen (tiersOf knowledge_level)

/-- The safe_stream_wrapper of /process_stream: before re-emitting each
chunk pulled from the inner generator it polls request.is_disconnected()
(modelled by disc applied to the index of the poll) and stops without
emitting anything further once the signal is observed. -/
def safe_stream_wrapper : List Event → (Nat → Bool) → Nat → List Event
  | [], _, _ => []
  | e :: rest, disc, n =>
    if disc n then [] else e :: safe_stream_wrapper rest disc (n + 1)

/-- The texts of the content events carrying a given level, in emission
order. -/
def contentTexts (L : Int) (evs : List Event) : List String :=
  evs.filterMap (fun e =>
    match e with
    | .content L' t => if L' = L then some t else none
    | _ => none)

/-- Within the event list, every occurrence of a content event for
level L is preceded by a level_start event for L: every emitted input
segment that contains some content for L already contains the
level_start for L. -/
def levelStartPrecedes (L : Int) (evs : List Event) : Prop :=
  ∀ n, (∃ t, Event.content L t ∈ evs.take n) → Event.level_start L ∈ evs.take n

theorem frags_of_fail {gen : Int → GenOutcome} {l : Int} {p : List String}
    {msg : String} (h : gen l = .fail p msg) : (gen l).frags = p := by
  rw [h]
  rfl

theorem runTiers_allOk (gen : Int → GenOutcome) (ls : List Int)
    (h : ∀ l ∈ ls, (gen l).isOk = true) :
    runTiers gen ls = (ls.map (tierBlock gen)).flatten ++ [Event.complete] := by
  induction ls with
  | nil => rfl
  | cons l ls ih =>
    cases hgl : gen l with
    | ok frags =>
      simp only [runTiers, hgl, List.map_cons, List.flatten_cons, List.append_assoc]
      rw [ih (fun x hx => h x (List.mem_cons_of_mem l hx))]
      simp [tierBlock, hgl, GenOutcome.frags]
    | fail p msg =>
      have := h l (List.mem_cons_self l ls)
      rw [hgl] at this
      simp [GenOutcome.isOk] at this

theorem runTiers_firstFail (gen : Int → GenOutcome) (ls₁ ls₂ : List Int)
    (t : Int) (p : List String) (msg : String)
    (h₁ : ∀ x ∈ ls₁, (gen x).isOk = true) (ht : gen t = .fail p msg) :
    runTiers gen (ls₁ ++ t :: ls₂) =
      (ls₁.map (tierBlock gen)).flatten ++ (tierBlock gen t ++ [Event.error msg]) := by
  induction ls₁ with
  | nil =>
    simp only [List.nil_append, List.map_nil, List.flatten_nil]
    simp [runTiers, ht, tierBlock, GenOutcome.frags]
  | cons l ls ih =>
    have hl : (gen l).isOk = true := h₁ l (List.mem_cons_self l ls)
    cases hgl : gen l with
    | ok frags =>
      have hrest := ih (fun x hx => h₁ x (List.mem_cons_of_mem l hx))
      simp only [List.cons_append, runTiers, hgl, List.map_cons, List.flatten_cons,
        List.append_assoc, List.append_eq] at hrest ⊢
      rw [hrest]
      simp [tierBlock, hgl, GenOutcome.frags]
    | fail q m =>
      rw [hgl] at hl
      simp [GenOutcome.isOk] at hl

theorem ok_or_firstFail (gen : Int → GenOutcome) (ls : List Int) :
    (∀ l ∈ ls, (gen l).isOk = true) ∨
      ∃ ls₁ t ls₂ p msg, ls = ls₁ ++ t :: ls₂ ∧
        (∀ x ∈ ls₁, (gen x).isOk = true) ∧ gen t = .fail p msg := by
  induction ls with
  | nil => left; intro l hl; cases hl
  | cons l ls ih =>
    cases hgl : gen l with
    | fail p msg =>
      right
      exact ⟨[], l, ls, p, msg, rfl, fun x hx => absurd hx (List.not_mem_nil x), hgl⟩
    | ok frags =>
      rcases ih with hok | ⟨ls₁, t, ls₂, p, msg, hsplit, hokpre, hfail⟩
      · left
        intro x hx
        rcases List.mem_cons.mp hx with hx | hx
        · rw [hx, hgl]; rfl
        · exact hok x hx
      · right
        refine ⟨l :: ls₁, t, ls₂, p, msg, by rw [hsplit, List.cons_append], ?_, hfail⟩
        intro x hx
        rcases List.mem_cons.mp hx with hx | hx
        · rw [hx, hgl]; rfl
        · exact hokpre x hx

theorem mem_tierBlock {gen : Int → GenOutcome} {l : Int} {e : Event}
    (h : e ∈ tierBlock gen l) :
    e = Event.level_start l ∨ ∃ t, e = Event.content l t := by
  simp only [tierBlock, List.mem_cons, List.mem_map] at h
  rcases h with h | ⟨t, _, ht⟩
  · exact Or.inl h
  · exact Or.inr ⟨t, ht.symm⟩

theorem mem_pyRange {l s e : Int} : l ∈ pyRange s e ↔ s ≤ l ∧ l < e := by
  constructor
  · intro h
    rcases List.mem_map.mp h with ⟨i, hi, rfl⟩
    have := List.mem_range.mp hi
    omega
  · rintro ⟨h₁, h₂⟩
    refine List.mem_map.mpr ⟨(l - s).toNat, List.mem_range.mpr ?_, ?_⟩
    · omega
    · omega

theorem nodup_pyRange (s e : Int) : (pyRange s e).Nodup := by
  unfold pyRange
  refine List.Nodup.map ?_ (List.nodup_range _)
  intro a b hab
  simp only at hab
  omega

theorem mem_runTiers {gen : Int → GenOutcome} {ls : List Int} {e : Event}
    (h : e ∈ runTiers gen ls) :
    (∃ m, e = Event.error m) ∨ e = Event.complete ∨
      ∃ l ∈ ls, (e = Event.level_start l ∨ ∃ t, e = Event.content l t) := by
  induction ls with
  | nil =>
    simp only [runTiers, List.mem_singleton] at h
    exact Or.inr (Or.inl h)
  | cons l ls ih =>
    cases hgl : gen l with
    | ok frags =>
      rw [runTiers, hgl] at h
      rcases List.mem_append.mp h with h | h
      · right; right
        refine ⟨l, List.mem_cons_self l ls, ?_⟩
        have : e ∈ tierBlock gen l := by
          simpa [tierBlock, hgl, GenOutcome.frags] using h
        exact mem_tierBlock this
      · rcases ih h with h | h | ⟨x, hx, hh⟩
        · exact Or.inl h
        · exact Or.inr (Or.inl h)
        · exact Or.inr (Or.inr ⟨x, List.mem_cons_of_mem l hx, hh⟩)
    | fail p msg =>
      rw [runTiers, hgl] at h
      rcases List.mem_append.mp h with h | h
      · right; right
        refine ⟨l, List.mem_cons_self l ls, ?_⟩
        have : e ∈ tierBlock gen l := by
          simpa [tierBlock, hgl, GenOutcome.frags] using h
        exact mem_tierBlock this
      · rcases List.mem_singleton.mp h with rfl
        exact Or.inl ⟨msg, rfl⟩

theorem level_start_mem_runTiers_allOk {gen : Int → GenOutcome} {ls : List Int}
    (h : ∀ l ∈ ls, (gen l).isOk = true) {L : Int} (hL : L ∈ ls) :
    Event.level_start L ∈ runTiers gen ls := by
  induction ls with
  | nil => cases hL
  | cons l ls ih =>
    cases hgl : gen l with
    | fail p msg =>
      have := h l (List.mem_cons_self l ls)
      rw [hgl] at this
      simp [GenOutcome.isOk] at this
    | ok frags =>
      rw [runTiers, hgl]
      rcases List.mem_cons.mp hL with rfl | hL
      · exact List.mem_append_left _ (List.mem_cons_self _ _)
      · exact List.mem_append_right _
          (ih (fun x hx => h x (List.mem_cons_of_mem l hx)) hL)

theorem complete_not_mem_tierBlock {gen : Int → GenOutcome} {l : Int} :
    Event.complete ∉ tierBlock gen l := by
  intro h
  rcases mem_tierBlock h with h | ⟨t, h⟩ <;> cases h

theorem test_not_mem_runTiers {gen : Int → GenOutcome} {ls : List Int}
    {m : String} : Event.test m ∉ runTiers gen ls := by
  intro h
  rcases mem_runTiers h with ⟨x, h⟩ | h | ⟨l, _, h | ⟨t, h⟩⟩ <;> cases h

theorem contentTexts_append (L : Int) (a b : List Event) :
    contentTexts L (a ++ b) = contentTexts L a ++ contentTexts L b :=
  List.filterMap_append a b _

theorem contentTexts_tierBlock (gen : Int → GenOutcome) (x L : Int) :
    contentTexts L (tierBlock gen x) =
      if x = L then (gen x).frags else [] := by
  by_cases hx : x = L
  · subst hx
    simp only [if_pos rfl, tierBlock, contentTexts, List.filterMap_cons]
    induction (gen x).frags with
    | nil => rfl
    | cons f fs ih =>
      simp only [List.map_cons, List.filterMap_cons] at ih ⊢
      simp [ih]
  · simp only [if_neg hx, tierBlock, contentTexts, List.filterMap_cons]
    induction (gen x).frags with
    | nil => rfl
    | cons f fs ih =>
      simp only [List.map_cons, List.filterMap_cons] at ih ⊢
      simp only [if_neg hx, ih]

theorem contentTexts_terminator (L : Int) (msg : String) :
    contentTexts L [Event.error msg] = [] ∧ contentTexts L [Event.complete] = [] := by
  constructor <;> rfl

theorem contentTexts_runTiers_not_mem (gen : Int → GenOutcome) (ls : List Int)
    (L : Int) (hL : L ∉ ls) : contentTexts L (runTiers gen ls) = [] := by
  induction ls with
  | nil => rfl
  | cons l ls ih =>
    have hlL : l ≠ L := fun h => hL (h ▸ List.mem_cons_self l ls)
    have hL' : L ∉ ls := fun h => hL (List.mem_cons_of_mem l h)
    cases hgl : gen l with
    | ok frags =>
      rw [runTiers, hgl]
      have hblock : contentTexts L (Event.level_start l :: frags.map (Event.content l))
          = [] := by
        have := contentTexts_tierBlock gen l L
        rw [if_neg hlL] at this
        simpa [tierBlock, hgl, GenOutcome.frags] using this
      rw [contentTexts_append, hblock, ih hL', List.nil_append]
    | fail p msg =>
      rw [runTiers, hgl]
      have hblock : contentTexts L (Event.level_start l :: p.map (Event.content l))
          = [] := by
        have := contentTexts_tierBlock gen l L
        rw [if_neg hlL] at this
        simpa [tierBlock, hgl, GenOutcome.frags] using this
      rw [contentTexts_append, hblock, List.nil_append]
      rfl

theorem contentTexts_runTiers (gen : Int → GenOutcome) (ls : List Int) (L : Int)
    (hnd : ls.Nodup) :
    contentTexts L (runTiers gen ls) = (gen L).frags ∨
      contentTexts L (runTiers gen ls) = [] := by
  induction ls with
  | nil => exact Or.inr rfl
  | cons l ls ih =>
    have hnd' : ls.Nodup := hnd.of_cons
    have hlnotin : l ∉ ls := (List.nodup_cons.mp hnd).1
    cases hgl : gen l with
    | ok frags =>
      rw [runTiers, hgl, contentTexts_append]
      have hblock := contentTexts_tierBlock gen l L
      by_cases hlL : l = L
      · subst hlL
        rw [if_pos rfl] at hblock
        have hblock' : contentTexts l (Event.level_start l :: frags.map (Event.content l))
            = frags := by
          simpa [tierBlock, hgl, GenOutcome.frags] using hblock
        rw [hblock', contentTexts_runTiers_not_mem gen ls l hlnotin, List.append_nil]
        exact Or.inl (by rw [hgl]; rfl)
      · rw [if_neg hlL] at hblock
        have hblock' : contentTexts L (Event.level_start l :: frags.map (Event.content l))
            = [] := by
          simpa [tierBlock, hgl, GenOutcome.frags] using hblock
        rw [hblock', List.nil_append]
        exact ih hnd'
    | fail p msg =>
      rw [runTiers, hgl, contentTexts_append]
      have hblock := contentTexts_tierBlock gen l L
      by_cases hlL : l = L
      · subst hlL
        rw [if_pos rfl] at hblock
        have hblock' : contentTexts l (Event.level_start l :: p.map (Event.content l))
            = p := by
          simpa [tierBlock, hgl, GenOutcome.frags] using hblock
        rw [hblock']
        refine Or.inl ?_
        rw [hgl]
        simp [contentTexts, GenOutcome.frags]
      · rw [if_neg hlL] at hblock
        have hblock' : contentTexts L (Event.level_start l :: p.map (Event.content l))
            = [] := by
          simpa [tierBlock, hgl, GenOutcome.frags] using hblock
        rw [hblock', List.nil_append]
        exact Or.inr (by simp [contentTexts])

theorem precedes_of_not_mem {L : Int} {evs : List Event}
    (h : ∀ t, Event.content L t ∉ evs) : levelStartPrecedes L evs := by
  rintro n ⟨t, ht⟩
  exact absurd (List.take_subset n evs ht) (h t)

theorem precedes_cons_level_start (L : Int) (rest : List Event) :
    levelStartPrecedes L (Event.level_start L :: rest) := by
  intro n hn
  rcases n with _ | n
  · rcases hn with ⟨t, ht⟩
    simp at ht
  · rw [List.take_succ_cons]
    exact List.mem_cons_self _ _

theorem precedes_append {L : Int} {es₁ es₂ : List Event}
    (h₁ : ∀ t, Event.content L t ∉ es₁) (h₂ : levelStartPrecedes L es₂) :
    levelStartPrecedes L (es₁ ++ es₂) := by
  rintro n ⟨t, ht⟩
  rw [List.take_append_eq_append_take] at ht ⊢
  rcases List.mem_append.mp ht with h | h
  · exact absurd (List.take_subset _ _ h) (h₁ t)
  · exact List.mem_append_right _ (h₂ (n - es₁.length) ⟨t, h⟩)

theorem no_content_in_tierBlock {gen : Int → GenOutcome} {x L : Int}
    (hx : x ≠ L) (t : String) : Event.content L t ∉ tierBlock gen x := by
  intro h
  rcases mem_tierBlock h with h | ⟨u, h⟩
  · cases h
  · cases h
    exact hx rfl

theorem precedes_runTiers (gen : Int → GenOutcome) (ls : List Int) (L : Int) :
    levelStartPrecedes L (runTiers gen ls) := by
  induction ls with
  | nil =>
    refine precedes_of_not_mem ?_
    intro t h
    simp [runTiers] at h
  | cons l ls ih =>
    by_cases hlL : l = L
    · subst hlL
      cases hgl : gen l with
      | ok frags =>
        rw [runTiers, hgl]
        exact precedes_cons_level_start l _
      | fail p msg =>
        rw [runTiers, hgl]
        exact precedes_cons_level_start l _
    · cases hgl : gen l with
      | ok frags =>
        rw [runTiers, hgl]
        refine precedes_append ?_ ih
        intro t ht
        have : Event.content L t ∈ tierBlock gen l := by
          simpa [tierBlock, hgl, GenOutcome.frags] using ht
        exact no_content_in_tierBlock hlL t this
      | fail p msg =>
        rw [runTiers, hgl]
        refine precedes_of_not_mem ?_
        intro t ht
        rcases List.mem_append.mp ht with h | h
        · have : Event.content L t ∈ tierBlock gen l := by
            simpa [tierBlock, hgl, GenOutcome.frags] using h
          exact no_content_in_tierBlock hlL t this
        · simp at h

theorem safe_stream_wrapper_take (evs : List Event) (disc : Nat → Bool)
    (k n₀ : Nat) (hd : disc (k + n₀) = true)
    (hmin : ∀ m, m < n₀ → disc (k + m) = false) (hlt : n₀ < evs.length) :
    safe_stream_wrapper evs disc k = evs.take n₀ := by
  induction evs generalizing k n₀ with
  | nil => simp at hlt
  | cons e rest ih =>
    rcases n₀ with _ | n
    · rw [Nat.add_zero] at hd
      simp [safe_stream_wrapper, hd]
    · have h0 : disc k = false := by
        have := hmin 0 (Nat.succ_pos n)
        rwa [Nat.add_zero] at this
      rw [List.take_succ_cons]
      simp only [safe_stream_wrapper, h0, Bool.false_eq_true, if_false,
        List.cons.injEq, true_and]
      refine ih (k + 1) n ?_ ?_ ?_
      · rw [show k + 1 + n = k + (n + 1) from by omega]
        exact hd
      · intro m hm
        rw [show k + 1 + m = k + (m + 1) from by omega]
        exact hmin (m + 1) (Nat.succ_lt_succ hm)
      · simpa using hlt

theorem runTiers_last_shape (gen : Int → GenOutcome) (ls : List Int) :
    ∃ pre last, runTiers gen ls = pre ++ [last] ∧ Event.complete ∉ pre := by
  induction ls with
  | nil => exact ⟨[], Event.complete, rfl, List.not_mem_nil _⟩
  | cons l ls ih =>
    cases hgl : gen l with
    | ok frags =>
      rcases ih with ⟨pre, last, hpre, hnm⟩
      refine ⟨(Event.level_start l :: frags.map (Event.content l)) ++ pre, last,
        ?_, ?_⟩
      · rw [runTiers, hgl, hpre, List.append_assoc]
      · intro hmem
        rcases List.mem_append.mp hmem with h | h
        · have : Event.complete ∈ tierBlock gen l := by
            simp only [tierBlock, hgl, GenOutcome.frags]
            exact h
          exact complete_not_mem_tierBlock this
        · exact hnm h
    | fail p msg =>
      refine ⟨Event.level_start l :: p.map (Event.content l), Event.error msg,
        by rw [runTiers, hgl], ?_⟩
      intro hmem
      have : Event.complete ∈ tierBlock gen l := by
        simp only [tierBlock, hgl, GenOutcome.frags]
        exact hmem
      exact complete_not_mem_tierBlock this

/-- Example collaborator: every tier stream succeeds with one fragment. -/
def genAllOk : Int → GenOutcome := fun _ => .ok ["frag"]

/-- Example collaborator: the tier 2 stream raises before yielding
anything, all other tiers succeed. -/
def genFailMid : Int → GenOutcome :=
  fun l => if l = 2 then .fail [] "boom" else .ok ["x"]

/-- Example collaborator: the tier 4 stream raises before yielding
anything, all other tiers succeed. -/
def genFailLast : Int → GenOutcome :=
  fun l => if l = 4 then .fail [] "API timeout" else .ok ["x"]

theorem start_level_zero : start_level 0 = 0 := by
  norm_num [start_level, truncToZero, Rat.floor_def']

theorem start_level_two_fifths : start_level (2/5) = 2 := by
  norm_num [start_level, truncToZero, Rat.floor_def']

theorem tiersOf_zero : tiersOf 0 = [0, 1, 2, 3, 4] := by
  unfold tiersOf
  rw [start_level_zero]
  decide

theorem tiersOf_two_fifths : tiersOf (2/5) = [2, 3, 4] := by
  unfold tiersOf
  rw [start_level_two_fifths]
  decide

theorem run_genAllOk_zero :
    generate_all_summaries_stream genAllOk "T" "en" 0
      = [Event.test "Stream started",
         Event.level_start 0, Event.content 0 "frag",
         Event.level_start 1, Event.content 1 "frag",
         Event.level_start 2, Event.content 2 "frag",
         Event.level_start 3, Event.content 3 "frag",
         Event.level_start 4, Event.content 4 "frag",
         Event.complete] := by
  unfold generate_all_summaries_stream
  rw [tiersOf_zero]
  decide

theorem run_genFailMid_zero :
    generate_all_summaries_stream genFailMid "T" "en" 0
      = [Event.test "Stream started",
         Event.level_start 0, Event.content 0 "x",
         Event.level_start 1, Event.content 1 "x",
         Event.level_start 2, Event.error "boom"] := by
  unfold generate_all_summaries_stream
  rw [tiersOf_zero]
  decide

theorem run_genFailLast_two_fifths :
    generate_all_summaries_stream genFailLast "T" "en" (2/5)
      = [Event.test "Stream started",
         Event.level_start 2, Event.content 2 "x",
         Event.level_start 3, Event.content 3 "x",
         Event.level_start 4, Event.error "API timeout"] := by
  unfold generate_all_summaries_stream
  rw [tiersOf_two_fifths]
  decide

/-- C2: after every sequence of add and remove operations applied to the
initially empty store (in any interleaving with reads), every live
session's combined_text equals the deterministic newline-join of its
sources in insertion order, each rendered as the header with the 1-based
position, the human-readable kind label and the filename label, followed
by a blank line, the body and a trailing blank line; and the kind label
mapping sends text, pdf and audio to "Text Input", "PDF Document" and
"Audio Transcription" and everything else to "Unknown Source". -/
theorem C2_combined_text_invariant (ops : List MemOp) (sid : String)
    (mem : SessionMemory) (h : applyOps lecture_memory ops sid = some mem) :
    mem.combined_text
      = String.intercalate "\n" (mem.sources.enum.map (fun p =>
          "=== Source " ++ toString (p.1 + 1) ++ ": " ++ type_label p.2.type
            ++ " - " ++ p.2.filename ++ " ===\n\n" ++ p.2.text ++ "\n\n"))
    ∧ type_label "text" = "Text Input"
    ∧ type_label "pdf" = "PDF Document"
    ∧ type_label "audio" = "Audio Transcription"
    ∧ (∀ t, t ≠ "text" → t ≠ "pdf" → t ≠ "audio" →
        type_label t = "Unknown Source") := by
  refine ⟨?_, rfl, rfl, rfl, ?_⟩
  · have hwf := WF_applyOps ops lecture_memory WF_lecture_memory sid mem h
    rw [hwf]
    rfl
  · intro t h1 h2 h3
    simp [type_label, h1, h2, h3]

/-- The session memory produced by one add of a text source. -/
def memC2 : SessionMemory :=
  ⟨[⟨"text", "notes.txt", "hello world!"⟩],
   "=== Source 1: Text Input - notes.txt ===\n\nhello world!\n\n"⟩

theorem C2_combined_text_invariant_witness :
    applyOps lecture_memory
        [MemOp.add none "S" "text" "notes.txt" "hello world!"] "S" = some memC2
    ∧ memC2.combined_text
        = String.intercalate "\n" (memC2.sources.enum.map (fun p =>
            "=== Source " ++ toString (p.1 + 1) ++ ": " ++ type_label p.2.type
              ++ " - " ++ p.2.filename ++ " ===\n\n" ++ p.2.text ++ "\n\n")) := by
  have h : applyOps lecture_memory
      [MemOp.add none "S" "text" "notes.txt" "hello world!"] "S" = some memC2 := by
    decide
  exact ⟨h, (C2_combined_text_invariant _ "S" memC2 h).1⟩

theorem pyStrip_length_le (s : String) : (pyStrip s).length ≤ s.length := by
  show ((s.data.dropWhile isPySpace).reverse.dropWhile isPySpace).reverse.length
      ≤ s.data.length
  rw [List.length_reverse]
  calc ((s.data.dropWhile isPySpace).reverse.dropWhile isPySpace).length
      ≤ (s.data.dropWhile isPySpace).reverse.length :=
        (List.dropWhile_sublist isPySpace).length_le
    _ = (s.data.dropWhile isPySpace).length := List.length_reverse _
    _ ≤ s.data.length := (List.dropWhile_sublist isPySpace).length_le

/-- C6 (amended): add fails with the 400 validation error exactly when
the stripped body has length below 10; a 9-character body therefore
always fails; a body whose stripped length is at least 10 (in
particular a 10-character body with no surrounding whitespace) succeeds
and appends exactly the new ContentSource to the session.  (The
original claim that every 10-character body succeeds is refuted by a
10-character body with leading whitespace, see the counterexample.) -/
theorem C6_validation (st : Store) (sid? : Option String)
    (fresh ty fn body : String) :
    (add_to_memory st sid? fresh ty fn body
        = .error ⟨400, "Content must be at least 10 characters"⟩
      ↔ (pyStrip body).length < 10)
    ∧ (body.length = 9 →
        add_to_memory st sid? fresh ty fn body
          = .error ⟨400, "Content must be at least 10 characters"⟩)
    ∧ (10 ≤ (pyStrip body).length →
        ∃ st' res, add_to_memory st sid? fresh ty fn body = .ok (st', res)
          ∧ res.source_added = ⟨ty, fn, pyStrip body⟩
          ∧ st' res.session_id
              = some ⟨((st res.session_id).getD ⟨[], ""⟩).sources
                    ++ [⟨ty, fn, pyStrip body⟩],
                  rebuildCombined (((st res.session_id).getD ⟨[], ""⟩).sources
                    ++ [⟨ty, fn, pyStrip body⟩])⟩) := by
  by_cases hlen : (pyStrip body).length < 10
  · refine ⟨⟨fun _ => hlen, fun _ => by simp [add_to_memory, hlen]⟩,
      fun _ => by simp [add_to_memory, hlen], fun h10 => absurd h10 (by omega)⟩
  · refine ⟨⟨fun hc => ?_, fun hc => absurd hc hlen⟩, fun h9 => ?_, fun _ => ?_⟩
    · simp [add_to_memory, hlen] at hc
    · exfalso
      have := pyStrip_length_le body
      omega
    · simp only [add_to_memory, if_neg hlen]
      refine ⟨_, _, rfl, rfl, ?_⟩
      simp

theorem C6_validation_counterexample :
    (" 123456789" : String).length = 10
    ∧ add_to_memory lecture_memory none "S" "text" "doc" " 123456789"
        = .error ⟨400, "Content must be at least 10 characters"⟩ := by
  constructor
  · decide
  · rfl

theorem C6_validation_witness :
    (("012345678" : String).length = 9
      ∧ add_to_memory lecture_memory none "S" "text" "doc" "012345678"
          = .error ⟨400, "Content must be at least 10 characters"⟩)
    ∧ (10 ≤ (pyStrip "0123456789").length
      ∧ ∃ st' res,
          add_to_memory lecture_memory none "S" "text" "doc" "0123456789"
            = .ok (st', res)
          ∧ res.source_added = ⟨"text", "doc", pyStrip "0123456789"⟩
          ∧ st' res.session_id
              = some ⟨((lecture_memory res.session_id).getD ⟨[], ""⟩).sources
                    ++ [⟨"text", "doc", pyStrip "0123456789"⟩],
                  rebuildCombined
                    (((lecture_memory res.session_id).getD ⟨[], ""⟩).sources
                      ++ [⟨"text", "doc", pyStrip "0123456789"⟩])⟩) := by
  constructor
  · exact ⟨by decide,
      (C6_validation lecture_memory none "S" "text" "doc" "012345678").2.1
        (by decide)⟩
  · exact ⟨by decide,
      (C6_validation lecture_memory none "S" "text" "doc" "0123456789").2.2
        (by decide)⟩

/-- C7: remove fails with 404 when the session is unknown; with a known
session it fails with the 400 index error exactly when the index is
outside [0, len(sources)) (so index = len fails); on an in-range index
it removes exactly that element, the remaining sources are the original
list with position index removed and no gaps (take index ++ drop
(index+1)), combined_text is recomputed from the remaining sources, and
a following get returns the rebuilt view. -/
theorem C7_remove (st : Store) (sid : String) (index : Int) (hsid : sid ≠ "") :
    (st sid = none →
      remove_from_memory st (some sid) index = .error ⟨404, "No session found"⟩)
    ∧ (∀ mem, st sid = some mem →
        ((index < 0 ∨ (mem.sources.length : Int) ≤ index) →
          remove_from_memory st (some sid) index
            = .error ⟨400, "Invalid source index"⟩)
        ∧ (0 ≤ index → index < (mem.sources.length : Int) →
          ∃ st' res,
            remove_from_memory st (some sid) index = .ok (st', res)
            ∧ mem.sources[index.toNat]? = some res.removed
            ∧ st' sid = some ⟨mem.sources.take index.toNat
                  ++ mem.sources.drop (index.toNat + 1),
                rebuildCombined (mem.sources.take index.toNat
                  ++ mem.sources.drop (index.toNat + 1))⟩
            ∧ get_memory st' (some sid)
                = ⟨mem.sources.take index.toNat
                    ++ mem.sources.drop (index.toNat + 1),
                  rebuildCombined (mem.sources.take index.toNat
                    ++ mem.sources.drop (index.toNat + 1)),
                  (mem.sources.take index.toNat
                    ++ mem.sources.drop (index.toNat + 1)).length⟩)) := by
  constructor
  · intro hnone
    simp [remove_from_memory, hsid, hnone]
  · intro mem hmem
    constructor
    · intro hidx
      simp [remove_from_memory, hsid, hmem, hidx]
    · intro h0 hl
      have hidx : ¬(index < 0 ∨ (mem.sources.length : Int) ≤ index) := by omega
      have hi : index.toNat < mem.sources.length := by omega
      simp only [remove_from_memory, if_neg hsid, hmem, if_neg hidx]
      refine ⟨_, _, rfl, ?_, ?_, ?_⟩
      · rw [List.getElem?_eq_getElem hi]
        simp
      · simp [List.eraseIdx_eq_take_drop_succ]
      · simp [get_memory, hsid, List.eraseIdx_eq_take_drop_succ]

/-- Concrete two-source store used by the C7 witness. -/
def stC7 : Store :=
  fun s => if s = "S"
    then some ⟨[⟨"text", "a", "aaaaaaaaaa"⟩, ⟨"pdf", "b", "bbbbbbbbbb"⟩],
      rebuildCombined [⟨"text", "a", "aaaaaaaaaa"⟩, ⟨"pdf", "b", "bbbbbbbbbb"⟩]⟩
    else none

theorem C7_remove_witness :
    (remove_from_memory stC7 (some "S") 2 = .error ⟨400, "Invalid source index"⟩)
    ∧ (∃ st' res,
        remove_from_memory stC7 (some "S") 1 = .ok (st', res)
        ∧ [(⟨"text", "a", "aaaaaaaaaa"⟩ : ContentSource),
            ⟨"pdf", "b", "bbbbbbbbbb"⟩][(1 : Int).toNat]? = some res.removed
        ∧ st' "S" = some ⟨[(⟨"text", "a", "aaaaaaaaaa"⟩ : ContentSource),
              ⟨"pdf", "b", "bbbbbbbbbb"⟩].take (1 : Int).toNat
            ++ [(⟨"text", "a", "aaaaaaaaaa"⟩ : ContentSource),
              ⟨"pdf", "b", "bbbbbbbbbb"⟩].drop ((1 : Int).toNat + 1),
            rebuildCombined ([(⟨"text", "a", "aaaaaaaaaa"⟩ : ContentSource),
              ⟨"pdf", "b", "bbbbbbbbbb"⟩].take (1 : Int).toNat
              ++ [(⟨"text", "a", "aaaaaaaaaa"⟩ : ContentSource),
                ⟨"pdf", "b", "bbbbbbbbbb"⟩].drop ((1 : Int).toNat + 1))⟩
        ∧ get_memory st' (some "S")
            = ⟨[(⟨"text", "a", "aaaaaaaaaa"⟩ : ContentSource),
                ⟨"pdf", "b", "bbbbbbbbbb"⟩].take (1 : Int).toNat
              ++ [(⟨"text", "a", "aaaaaaaaaa"⟩ : ContentSource),
                ⟨"pdf", "b", "bbbbbbbbbb"⟩].drop ((1 : Int).toNat + 1),
              rebuildCombined ([(⟨"text", "a", "aaaaaaaaaa"⟩ : ContentSource),
                ⟨"pdf", "b", "bbbbbbbbbb"⟩].take (1 : Int).toNat
                ++ [(⟨"text", "a", "aaaaaaaaaa"⟩ : ContentSource),
                  ⟨"pdf", "b", "bbbbbbbbbb"⟩].drop ((1 : Int).toNat + 1)),
              ([(⟨"text", "a", "aaaaaaaaaa"⟩ : ContentSource),
                ⟨"pdf", "b", "bbbbbbbbbb"⟩].take (1 : Int).toNat
                ++ [(⟨"text", "a", "aaaaaaaaaa"⟩ : ContentSource),
                  ⟨"pdf", "b", "bbbbbbbbbb"⟩].drop ((1 : Int).toNat + 1)).length⟩) := by
  have hmem : stC7 "S" = some ⟨[⟨"text", "a", "aaaaaaaaaa"⟩, ⟨"pdf", "b", "bbbbbbbbbb"⟩],
      rebuildCombined [⟨"text", "a", "aaaaaaaaaa"⟩, ⟨"pdf", "b", "bbbbbbbbbb"⟩]⟩ := rfl
  constructor
  · exact (((C7_remove stC7 "S" 2 (by decide)).2 _ hmem).1) (by norm_num)
  · exact (((C7_remove stC7 "S" 1 (by decide)).2 _ hmem).2) (by norm_num) (by norm_num)

/-- C8: get never raises: it is a total function that returns the empty
view (no sources, empty combined text, zero count) for a missing or
unknown session id, and it does not mutate the store, so repeated gets
without an intervening mutation return identical results. -/
theorem C8_get (st : Store) (sid? : Option String) :
    ((sid? = none ∨ ∃ s, sid? = some s ∧ (s = "" ∨ st s = none)) →
      get_memory st sid? = ⟨[], "", 0⟩)
    ∧ applyOp st (MemOp.get sid?) = st
    ∧ get_memory (applyOp st (MemOp.get sid?)) sid? = get_memory st sid? := by
  refine ⟨?_, rfl, rfl⟩
  rintro (rfl | ⟨s, rfl, hs | hs⟩)
  · rfl
  · simp [get_memory, hs]
  · by_cases h0 : s = ""
    · simp [get_memory, h0]
    · simp [get_memory, h0, hs]

theorem C8_get_witness :
    ((some "ghost" : Option String) = none
      ∨ ∃ s, (some "ghost" : Option String) = some s
          ∧ (s = "" ∨ lecture_memory s = none))
    ∧ get_memory lecture_memory (some "ghost") = ⟨[], "", 0⟩ := by
  have h : (some "ghost" : Option String) = none
      ∨ ∃ s, (some "ghost" : Option String) = some s
          ∧ (s = "" ∨ lecture_memory s = none) :=
    Or.inr ⟨"ghost", rfl, Or.inr rfl⟩
  exact ⟨h, (C8_get lecture_memory (some "ghost")).1 h⟩

/-- C9: clear never raises: it deletes the whole session entry when
present and is a no-op when the session is absent; a get after clear on
the same id returns the empty view; a subsequent add under the same id
creates a fresh memory holding only the newly added source, never the
old ones; entries of other sessions are untouched. -/
theorem C9_clear (st : Store) (sid fresh ty fn body : String) (hsid : sid ≠ "")
    (hbody : 10 ≤ (pyStrip body).length) :
    clear_memory st (some sid) sid = none
    ∧ get_memory (clear_memory st (some sid)) (some sid) = ⟨[], "", 0⟩
    ∧ (st sid = none → clear_memory st (some sid) = st)
    ∧ (∀ x, x ≠ sid → clear_memory st (some sid) x = st x)
    ∧ ∃ st' res,
        add_to_memory (clear_memory st (some sid)) (some sid) fresh ty fn body
          = .ok (st', res)
        ∧ st' sid = some ⟨[⟨ty, fn, pyStrip body⟩],
            rebuildCombined [⟨ty, fn, pyStrip body⟩]⟩ := by
  have hclear : clear_memory st (some sid) sid = none := by
    simp only [clear_memory, if_neg hsid]
    cases hst : st sid with
    | none => exact hst
    | some m => simp
  refine ⟨hclear, ?_, ?_, ?_, ?_⟩
  · simp [get_memory, hsid, hclear]
  · intro hnone
    simp [clear_memory, hsid, hnone]
  · intro x hx
    simp only [clear_memory, if_neg hsid]
    cases hst : st sid with
    | none => rfl
    | some m => simp [hx]
  · have hlen : ¬(pyStrip body).length < 10 := by omega
    simp only [add_to_memory, if_neg hlen, if_neg hsid]
    refine ⟨_, _, rfl, ?_⟩
    simp [hclear, if_neg hsid]

theorem C9_clear_witness :
    ("S" : String) ≠ ""
    ∧ 10 ≤ (pyStrip "fresh body").length
    ∧ clear_memory stC7 (some "S") "S" = none
    ∧ get_memory (clear_memory stC7 (some "S")) (some "S") = ⟨[], "", 0⟩
    ∧ ∃ st' res,
        add_to_memory (clear_memory stC7 (some "S")) (some "S")
            "F" "text" "doc" "fresh body" = .ok (st', res)
        ∧ st' "S" = some ⟨[⟨"text", "doc", pyStrip "fresh body"⟩],
            rebuildCombined [⟨"text", "doc", pyStrip "fresh body"⟩]⟩ := by
  have h := C9_clear stC7 "S" "F" "text" "doc" "fresh body" (by decide) (by decide)
  exact ⟨by decide, by decide, h.1, h.2.1, h.2.2.2.2⟩

/-- C10: for any live session whose stored combined text has trimmed
length below 50, both the streaming endpoint and the adaptive question
endpoint reject a use_memory request with the 400 "Memory is empty"
client error, although get still reports the session contents.  Such
sessions are reachable, because one add only requires a 10-character
body (see the witness, which builds one with an empty filename). -/
theorem C10_memory_floor (st : Store) (sid : String) (mem : SessionMemory)
    (hsid : sid ≠ "") (hmem : st sid = some mem)
    (hlen : (pyStrip mem.combined_text).length < 50) :
    memory_transcript_for_stream st (some sid)
      = .error ⟨400, "Memory is empty. Please add sources first."⟩
    ∧ memory_transcript_for_question st (some sid)
      = .error ⟨400, "Memory is empty. Please add sources first."⟩
    ∧ get_memory st (some sid)
      = ⟨mem.sources, mem.combined_text, mem.sources.length⟩ := by
  refine ⟨?_, ?_, ?_⟩
  · simp [memory_transcript_for_stream, hsid, hmem, hlen]
  · simp [memory_transcript_for_question, hsid, hmem, hlen]
  · simp [get_memory, hsid, hmem]

/-- The store reached from an empty store by one add of a 10-character
body with an empty filename; its combined text strips to 43 characters,
below the 50-character floor of the summarize/quiz endpoints. -/
def stC10 : Store :=
  fun s => if s = "S"
    then some ⟨[⟨"text", "", "0123456789"⟩],
      rebuildCombined [⟨"text", "", "0123456789"⟩]⟩
    else none

theorem C10_memory_floor_witness :
    (∃ st' res, add_to_memory lecture_memory none "S" "text" "" "0123456789"
        = .ok (st', res) ∧ ∀ x, st' x = stC10 x)
    ∧ stC10 "S" = some ⟨[⟨"text", "", "0123456789"⟩],
        rebuildCombined [⟨"text", "", "0123456789"⟩]⟩
    ∧ (pyStrip (rebuildCombined [⟨"text", "", "0123456789"⟩])).length < 50
    ∧ memory_transcript_for_stream stC10 (some "S")
        = .error ⟨400, "Memory is empty. Please add sources first."⟩
    ∧ memory_transcript_for_question stC10 (some "S")
        = .error ⟨400, "Memory is empty. Please add sources first."⟩ := by
  have h := C10_memory_floor stC10 "S"
    ⟨[⟨"text", "", "0123456789"⟩], rebuildCombined [⟨"text", "", "0123456789"⟩]⟩
    (by decide) rfl (by decide)
  refine ⟨⟨_, _, rfl, ?_⟩, rfl, by decide, h.1, h.2.1⟩
  intro x
  by_cases hx : x = "S"
  · subst hx
    rfl
  · simp [add_to_memory, stC10, lecture_memory, hx]

theorem complete_not_mem_flatten_blocks (gen : Int → GenOutcome)
    (ls : List Int) :
    Event.complete ∉ (ls.map (tierBlock gen)).flatten := by
  intro h
  rcases List.mem_flatten.mp h with ⟨b, hb, hcb⟩
  rcases List.mem_map.mp hb with ⟨x, _, rfl⟩
  exact complete_not_mem_tierBlock hcb

theorem level_start_mem_flatten_blocks {gen : Int → GenOutcome}
    {ls : List Int} {l : Int}
    (h : Event.level_start l ∈ (ls.map (tierBlock gen)).flatten) : l ∈ ls := by
  rcases List.mem_flatten.mp h with ⟨b, hb, hlb⟩
  rcases List.mem_map.mp hb with ⟨x, hx, rfl⟩
  rcases mem_tierBlock hlb with h | ⟨u, h⟩
  · injection h with h
    subst h
    exact hx
  · cases h

theorem stream_fail_events (gen : Int → GenOutcome) (tr lang : String)
    (kl : ℚ) (ls₁ ls₂ : List Int) (t : Int) (p : List String) (msg : String)
    (hsplit : tiersOf kl = ls₁ ++ t :: ls₂)
    (hok : ∀ x ∈ ls₁, (gen x).isOk = true) (hfail : gen t = .fail p msg) :
    generate_all_summaries_stream gen tr lang kl
      = Event.test "Stream started" ::
          ((ls₁.map (tierBlock gen)).flatten
            ++ ((Event.level_start t :: p.map (Event.content t))
              ++ [Event.error msg])) := by
  have hrun := runTiers_firstFail gen ls₁ ls₂ t p msg hok hfail
  have hblock : tierBlock gen t = Event.level_start t :: p.map (Event.content t) := by
    rw [tierBlock, hfail]
    rfl
  simp only [generate_all_summaries_stream]
  rw [hsplit, hrun, hblock]

theorem stream_fail_no_complete (gen : Int → GenOutcome) (tr lang : String)
    (kl : ℚ) (ls₁ ls₂ : List Int) (t : Int) (p : List String) (msg : String)
    (hsplit : tiersOf kl = ls₁ ++ t :: ls₂)
    (hok : ∀ x ∈ ls₁, (gen x).isOk = true) (hfail : gen t = .fail p msg) :
    Event.complete ∉ generate_all_summaries_stream gen tr lang kl := by
  rw [stream_fail_events gen tr lang kl ls₁ ls₂ t p msg hsplit hok hfail]
  intro hc
  rcases List.mem_cons.mp hc with h | h
  · cases h
  rcases List.mem_append.mp h with h | h
  · exact complete_not_mem_flatten_blocks gen ls₁ h
  rcases List.mem_cons.mp h with h | h
  · cases h
  rcases List.mem_append.mp h with h | h
  · rcases List.mem_map.mp h with ⟨u, _, hu⟩
    cases hu
  · exact Event.noConfusion (List.mem_singleton.mp h)

theorem stream_fail_getLast (gen : Int → GenOutcome) (tr lang : String)
    (kl : ℚ) (ls₁ ls₂ : List Int) (t : Int) (p : List String) (msg : String)
    (hsplit : tiersOf kl = ls₁ ++ t :: ls₂)
    (hok : ∀ x ∈ ls₁, (gen x).isOk = true) (hfail : gen t = .fail p msg) :
    (generate_all_summaries_stream gen tr lang kl).getLast?
      = some (Event.error msg) := by
  have hshape : generate_all_summaries_stream gen tr lang kl
      = (Event.test "Stream started" ::
          ((ls₁.map (tierBlock gen)).flatten
            ++ (Event.level_start t :: p.map (Event.content t))))
        ++ [Event.error msg] := by
    rw [stream_fail_events gen tr lang kl ls₁ ls₂ t p msg hsplit hok hfail]
    simp [List.append_assoc]
  rw [hshape, List.getLast?_concat]

theorem stream_last_shape (gen : Int → GenOutcome) (tr lang : String) (kl : ℚ) :
    ∃ pre last, generate_all_summaries_stream gen tr lang kl
        = (Event.test "Stream started" :: pre) ++ [last]
      ∧ Event.complete ∉ (Event.test "Stream started" :: pre) := by
  obtain ⟨pre, last, h, hnm⟩ := runTiers_last_shape gen (tiersOf kl)
  refine ⟨pre, last, ?_, ?_⟩
  · simp only [generate_all_summaries_stream, h, List.cons_append]
  · intro hc
    rcases List.mem_cons.mp hc with h | h
    · cases h
    · exact hnm h

/-- C3: the starting tier computed by the aggregator equals the value
the spec prescribes, floor(min(knowledge_level, 1) * 5) clamped into
[0, 4], for every knowledge level in [0, 1]; no level_start or content
event for any tier below the starting tier is ever emitted; and when
every tier stream succeeds the level_start events are exactly those of
the tiers from the starting tier through 4. -/
theorem C3_starting_tier (gen : Int → GenOutcome) (tr lang : String) (kl : ℚ)
    (h0 : 0 ≤ kl) (h1 : kl ≤ 1) :
    start_level kl = max 0 (min 4 (min kl 1 * 5).floor)
    ∧ (∀ l : Int, l < start_level kl →
        Event.level_start l ∉ generate_all_summaries_stream gen tr lang kl
        ∧ ∀ t, Event.content l t ∉ generate_all_summaries_stream gen tr lang kl)
    ∧ ((∀ l ∈ tiersOf kl, (gen l).isOk = true) →
        ∀ l : Int, Event.level_start l ∈ generate_all_summaries_stream gen tr lang kl
          ↔ start_level kl ≤ l ∧ l < 5) := by
  refine ⟨?_, ?_, ?_⟩
  · have h5 : (0 : ℚ) ≤ kl * 5 := by positivity
    have hfl0 : (0 : Int) ≤ (kl * 5).floor := by
      rw [Rat.le_floor]
      exact_mod_cast h5
    rw [start_level, truncToZero, if_neg (not_lt.mpr h5), min_eq_left h1,
      max_eq_right (le_min (by norm_num) hfl0)]
  · intro l hlo
    constructor
    · intro hmem
      rcases List.mem_cons.mp hmem with h | h
      · cases h
      rcases mem_runTiers h with ⟨m, h⟩ | h | ⟨x, hx, h | ⟨u, h⟩⟩
      · cases h
      · cases h
      · injection h with h
        subst h
        have := (mem_pyRange.mp hx).1
        omega
      · cases h
    · intro u hmem
      rcases List.mem_cons.mp hmem with h | h
      · cases h
      rcases mem_runTiers h with ⟨m, h⟩ | h | ⟨x, hx, h | ⟨v, h⟩⟩
      · cases h
      · cases h
      · cases h
      · injection h with h hv
        subst h
        have := (mem_pyRange.mp hx).1
        omega
  · intro hok l
    constructor
    · intro hmem
      rcases List.mem_cons.mp hmem with h | h
      · cases h
      rcases mem_runTiers h with ⟨m, h⟩ | h | ⟨x, hx, h | ⟨u, h⟩⟩
      · cases h
      · cases h
      · injection h with h
        subst h
        exact mem_pyRange.mp hx
      · cases h
    · rintro ⟨ha, hb⟩
      have hltier : l ∈ tiersOf kl := mem_pyRange.mpr ⟨ha, hb⟩
      exact List.mem_cons_of_mem _
        (level_start_mem_runTiers_allOk hok hltier)

theorem C3_starting_tier_witness :
    (0 : ℚ) ≤ 2/5 ∧ (2/5 : ℚ) ≤ 1
    ∧ Event.level_start 1 ∉ generate_all_summaries_stream genAllOk "T" "en" (2/5)
    ∧ (Event.level_start 2 ∈ generate_all_summaries_stream genAllOk "T" "en" (2/5)
        ↔ start_level (2/5) ≤ 2 ∧ (2 : Int) < 5) := by
  have h := C3_starting_tier genAllOk "T" "en" (2/5) (by norm_num) (by norm_num)
  refine ⟨by norm_num, by norm_num, ?_, ?_⟩
  · have h1lt : (1 : Int) < start_level (2/5) := by
      rw [start_level_two_fifths]
      norm_num
    exact (h.2.1 1 h1lt).1
  · exact h.2.2 (fun l _ => rfl) 2

/-- C1 (corrected): the per-tier loop sits inside a single try/except,
so the first tier whose stream raises ends the whole run: the events of
the earlier (successful) tiers stand, the failing tier contributes its
level_start and the fragments produced before the exception, and then a
single top-level error event (carrying only the message, with no tier
level field) is the final event; the sibling tiers after the failing
one are never started and complete is never emitted. -/
theorem C1_tier_failure (gen : Int → GenOutcome) (tr lang : String) (kl : ℚ)
    (ls₁ ls₂ : List Int) (t : Int) (p : List String) (msg : String)
    (hsplit : tiersOf kl = ls₁ ++ t :: ls₂)
    (hok : ∀ x ∈ ls₁, (gen x).isOk = true) (hfail : gen t = .fail p msg) :
    generate_all_summaries_stream gen tr lang kl
      = Event.test "Stream started" ::
          ((ls₁.map (tierBlock gen)).flatten
            ++ ((Event.level_start t :: p.map (Event.content t))
              ++ [Event.error msg]))
    ∧ Event.complete ∉ generate_all_summaries_stream gen tr lang kl
    ∧ (generate_all_summaries_stream gen tr lang kl).getLast?
        = some (Event.error msg)
    ∧ ∀ l ∈ ls₂, Event.level_start l ∉ generate_all_summaries_stream gen tr lang kl := by
  have hnd : (ls₁ ++ t :: ls₂).Nodup := by
    rw [← hsplit]
    exact nodup_pyRange _ _
  have hdisj := (List.nodup_append.mp hnd).2.2
  have htl₂ : t ∉ ls₂ := (List.nodup_cons.mp (List.nodup_append.mp hnd).2.1).1
  refine ⟨stream_fail_events gen tr lang kl ls₁ ls₂ t p msg hsplit hok hfail,
    stream_fail_no_complete gen tr lang kl ls₁ ls₂ t p msg hsplit hok hfail,
    stream_fail_getLast gen tr lang kl ls₁ ls₂ t p msg hsplit hok hfail, ?_⟩
  intro l hl₂ hmem
  rw [stream_fail_events gen tr lang kl ls₁ ls₂ t p msg hsplit hok hfail] at hmem
  rcases List.mem_cons.mp hmem with h | h
  · cases h
  rcases List.mem_append.mp h with h | h
  · have hl₁ : l ∈ ls₁ := level_start_mem_flatten_blocks h
    exact hdisj hl₁ (List.mem_cons_of_mem t hl₂)
  rcases List.mem_cons.mp h with h | h
  · injection h with h
    subst h
    exact htl₂ hl₂
  rcases List.mem_append.mp h with h | h
  · rcases List.mem_map.mp h with ⟨u, _, hu⟩
    cases hu
  · exact Event.noConfusion (List.mem_singleton.mp h)

theorem C1_tier_failure_counterexample :
    genFailMid 2 = .fail [] "boom"
    ∧ Event.complete ∉ generate_all_summaries_stream genFailMid "T" "en" 0
    ∧ Event.level_start 3 ∉ generate_all_summaries_stream genFailMid "T" "en" 0
    ∧ (generate_all_summaries_stream genFailMid "T" "en" 0).getLast?
        ≠ some Event.complete := by
  refine ⟨rfl, ?_, ?_, ?_⟩
  · rw [run_genFailMid_zero]
    decide
  · rw [run_genFailMid_zero]
    decide
  · rw [run_genFailMid_zero]
    decide

theorem C1_tier_failure_witness :
    tiersOf 0 = [0, 1] ++ 2 :: [3, 4]
    ∧ genFailMid 2 = .fail [] "boom"
    ∧ Event.complete ∉ generate_all_summaries_stream genFailMid "T" "en" 0
    ∧ (generate_all_summaries_stream genFailMid "T" "en" 0).getLast?
        = some (Event.error "boom")
    ∧ ∀ l ∈ [(3 : Int), 4],
        Event.level_start l ∉ generate_all_summaries_stream genFailMid "T" "en" 0 := by
  have hsplit : tiersOf 0 = [0, 1] ++ 2 :: [3, 4] := by
    rw [tiersOf_zero]
    rfl
  have hok : ∀ x ∈ [(0 : Int), 1], (genFailMid x).isOk = true := by
    decide
  have h := C1_tier_failure genFailMid "T" "en" 0 [0, 1] [3, 4] 2 [] "boom"
    hsplit hok rfl
  exact ⟨hsplit, rfl, h.2.1, h.2.2.1, h.2.2.2⟩

/-- C4 (corrected): every run begins with exactly one test event (the
head is the test event and no test event occurs later); level_start(L)
precedes every content event of level L; the content events of one
level relay the underlying stream fragments in order (they equal the
full fragment list of that tier, or are absent when the tier was never
reached); and the single complete event is the last event exactly on a
fully successful run — on a partially-successful run (some tier
raised) no complete is emitted and the final event is the top-level
error event. -/
theorem C4_event_ordering (gen : Int → GenOutcome) (tr lang : String) (kl : ℚ) :
    (generate_all_summaries_stream gen tr lang kl).head?
        = some (Event.test "Stream started")
    ∧ (∀ m, Event.test m ∉ (generate_all_summaries_stream gen tr lang kl).tail)
    ∧ (∀ L, levelStartPrecedes L (generate_all_summaries_stream gen tr lang kl))
    ∧ (∀ L, contentTexts L (generate_all_summaries_stream gen tr lang kl)
          = (gen L).frags
        ∨ contentTexts L (generate_all_summaries_stream gen tr lang kl) = [])
    ∧ ((∀ l ∈ tiersOf kl, (gen l).isOk = true) →
        (generate_all_summaries_stream gen tr lang kl).getLast?
            = some Event.complete
        ∧ Event.complete ∉ (generate_all_summaries_stream gen tr lang kl).dropLast)
    ∧ ((∃ l ∈ tiersOf kl, (gen l).isOk = false) →
        Event.complete ∉ generate_all_summaries_stream gen tr lang kl
        ∧ ∃ msg, (generate_all_summaries_stream gen tr lang kl).getLast?
            = some (Event.error msg)) := by
  refine ⟨rfl, ?_, ?_, ?_, ?_, ?_⟩
  · intro m
    exact test_not_mem_runTiers
  · intro L
    have hshape : generate_all_summaries_stream gen tr lang kl
        = [Event.test "Stream started"] ++ runTiers gen (tiersOf kl) := rfl
    rw [hshape]
    refine precedes_append ?_ (precedes_runTiers gen (tiersOf kl) L)
    intro t ht
    exact Event.noConfusion (List.mem_singleton.mp ht)
  · intro L
    have hshape : contentTexts L (generate_all_summaries_stream gen tr lang kl)
        = contentTexts L (runTiers gen (tiersOf kl)) := rfl
    rw [hshape]
    exact contentTexts_runTiers gen (tiersOf kl) L (nodup_pyRange _ _)
  · intro hok
    have hshape : generate_all_summaries_stream gen tr lang kl
        = (Event.test "Stream started"
            :: ((tiersOf kl).map (tierBlock gen)).flatten) ++ [Event.complete] := by
      simp only [generate_all_summaries_stream, runTiers_allOk gen (tiersOf kl) hok,
        List.cons_append]
    rw [hshape, List.getLast?_concat, List.dropLast_concat]
    refine ⟨rfl, ?_⟩
    intro hc
    rcases List.mem_cons.mp hc with h | h
    · cases h
    · exact complete_not_mem_flatten_blocks gen (tiersOf kl) h
  · rintro ⟨l, hl, hfl⟩
    rcases ok_or_firstFail gen (tiersOf kl) with hok | ⟨ls₁, t, ls₂, p, msg, hsplit, hokpre, hfail⟩
    · rw [hok l hl] at hfl
      cases hfl
    · exact ⟨stream_fail_no_complete gen tr lang kl ls₁ ls₂ t p msg hsplit hokpre hfail,
        msg, stream_fail_getLast gen tr lang kl ls₁ ls₂ t p msg hsplit hokpre hfail⟩

theorem C4_event_ordering_counterexample :
    (∃ l ∈ tiersOf (2/5), (genFailLast l).isOk = false)
    ∧ (genFailLast 2).isOk = true
    ∧ (genFailLast 3).isOk = true
    ∧ Event.complete ∉ generate_all_summaries_stream genFailLast "T" "en" (2/5)
    ∧ (generate_all_summaries_stream genFailLast "T" "en" (2/5)).getLast?
        = some (Event.error "API timeout") := by
  refine ⟨⟨4, ?_, rfl⟩, rfl, rfl, ?_, ?_⟩
  · rw [tiersOf_two_fifths]
    decide
  · rw [run_genFailLast_two_fifths]
    decide
  · rw [run_genFailLast_two_fifths]
    rfl

theorem C4_event_ordering_witness :
    ((∀ l ∈ tiersOf 0, (genAllOk l).isOk = true)
      ∧ (generate_all_summaries_stream genAllOk "T" "en" 0).getLast?
          = some Event.complete
      ∧ Event.complete ∉ (generate_all_summaries_stream genAllOk "T" "en" 0).dropLast)
    ∧ ((∃ l ∈ tiersOf 0, (genFailMid l).isOk = false)
      ∧ Event.complete ∉ generate_all_summaries_stream genFailMid "T" "en" 0) := by
  have hok : ∀ l ∈ tiersOf 0, (genAllOk l).isOk = true := fun l _ => rfl
  have hex : ∃ l ∈ tiersOf 0, (genFailMid l).isOk = false := by
    refine ⟨2, ?_, rfl⟩
    rw [tiersOf_zero]
    decide
  exact ⟨⟨hok, (C4_event_ordering genAllOk "T" "en" 0).2.2.2.2.1 hok⟩,
    ⟨hex, ((C4_event_ordering genFailMid "T" "en" 0).2.2.2.2.2 hex).1⟩⟩

/-- C5: the wrapper polls the disconnect signal before re-emitting each
chunk pulled from the aggregator; once the signal is observed (first
true poll at position n₀, with a chunk still pending) the delivered
sequence is exactly the first n₀ inner events — nothing further is
emitted — and complete is never among the delivered events, because
complete can only be the last inner event and the cut happens strictly
before the end. -/
theorem C5_cancellation (gen : Int → GenOutcome) (tr lang : String) (kl : ℚ)
    (disc : Nat → Bool) (n₀ : Nat)
    (hlt : n₀ < (generate_all_summaries_stream gen tr lang kl).length)
    (hd : disc n₀ = true) (hmin : ∀ m, m < n₀ → disc m = false) :
    safe_stream_wrapper (generate_all_summaries_stream gen tr lang kl) disc 0
      = (generate_all_summaries_stream gen tr lang kl).take n₀
    ∧ Event.complete
        ∉ safe_stream_wrapper (generate_all_summaries_stream gen tr lang kl) disc 0 := by
  have hd0 : disc (0 + n₀) = true := by rwa [Nat.zero_add]
  have hmin0 : ∀ m, m < n₀ → disc (0 + m) = false := by
    intro m hm
    rw [Nat.zero_add]
    exact hmin m hm
  have heq := safe_stream_wrapper_take _ disc 0 n₀ hd0 hmin0 hlt
  refine ⟨heq, ?_⟩
  rw [heq]
  obtain ⟨pre, last, hshape, hnm⟩ := stream_last_shape gen tr lang kl
  have hlen : n₀ ≤ (Event.test "Stream started" :: pre).length := by
    rw [hshape, List.length_append, List.length_singleton] at hlt
    omega
  rw [hshape, List.take_append_of_le_length hlen]
  intro hc
  exact hnm (List.take_subset _ _ hc)

/-- Disconnect signal of the C5 witness: first observed at poll 6. -/
def discEx : Nat → Bool := fun n => decide (6 ≤ n)

theorem C5_cancellation_witness :
    discEx 6 = true ∧ (∀ m, m < 6 → discEx m = false)
    ∧ 6 < (generate_all_summaries_stream genAllOk "T" "en" 0).length
    ∧ safe_stream_wrapper (generate_all_summaries_stream genAllOk "T" "en" 0) discEx 0
        = [Event.test "Stream started", Event.level_start 0, Event.content 0 "frag",
           Event.level_start 1, Event.content 1 "frag", Event.level_start 2]
    ∧ Event.complete
        ∉ safe_stream_wrapper (generate_all_summaries_stream genAllOk "T" "en" 0)
            discEx 0 := by
  have hlt : 6 < (generate_all_summaries_stream genAllOk "T" "en" 0).length := by
    rw [run_genAllOk_zero]
    decide
  have h := C5_cancellation genAllOk "T" "en" 0 discEx 6 hlt rfl (by decide)
  refine ⟨rfl, by decide, hlt, ?_, h.2⟩
  rw [h.1, run_genAllOk_zero]
  rfl

end LectureBackend
